import Mathlib

/-!
Verification of the trovochat library against its specification.

The Rust sources are shallowly embedded: strings are modelled as `List Char`
(wrapped into `String` at the API surface), byte indices of the ASCII wire
format coincide with character indices, and each Rust function is translated
into a Lean function of the same name.  Definitions marked
"Modelled from the spec:" correspond to modules of the repository whose
source files are absent (only their callers are present); they follow the
specification text.
-/

namespace Trovo

/-! ## Basic string primitives (Rust `str` semantics) -/

/-- Rust `char::is_whitespace`, restricted to the ASCII whitespace characters
that occur on the IRC wire format. -/
def isWs (c : Char) : Bool :=
  c == ' ' || c == '\t' || c == '\r' || c == '\n'

/-- Rust `str::trim_start`. -/
def trimLeftL (s : List Char) : List Char :=
  s.dropWhile isWs

/-- Rust `str::trim_end`. -/
def trimRightL (s : List Char) : List Char :=
  (s.reverse.dropWhile isWs).reverse

/-- Rust `str::trim`. -/
def trimL (s : List Char) : List Char :=
  trimRightL (trimLeftL s)

/-- Rust `str::find(pattern)`: index of the first occurrence of `needle`
as a contiguous sub-sequence of `hay`. -/
def findSub (needle : List Char) : List Char → Option Nat
  | [] => if needle = [] then some 0 else none
  | c :: t =>
    if needle.isPrefixOf (c :: t) then some 0
    else (findSub needle t).map (· + 1)

/-- Split on a separator character, keeping every (possibly empty) field:
Rust `str::split(sep)`. -/
def splitChar (sep : Char) : List Char → List (List Char)
  | [] => [[]]
  | c :: rest =>
    if c = sep then [] :: splitChar sep rest
    else
      match splitChar sep rest with
      | [] => [[c]]
      | g :: gs => (c :: g) :: gs

/-- Rust `str::split_terminator(sep)`: like `split`, but a trailing empty
field (arising from a trailing separator or an empty input) is dropped. -/
def splitTerminator (sep : Char) (s : List Char) : List (List Char) :=
  let parts := splitChar sep s
  if parts.getLast? = some [] then parts.dropLast else parts

/-! ## `src/irc/tags.rs` -/

/-- `Tags::parse` from `src/irc/tags.rs`:
`input[1..].split_terminator(';').filter_map(|p| { let pos = p.find('=')?;
Some((p[..pos].to_string(), p[pos + 1..].to_string())) })`.
The resulting entry list is collected into a `HashMap` in the source; the
list here keeps every produced entry (a later duplicate key wins in the map). -/
def Tags.parse (input : List Char) : List (List Char × List Char) :=
  (splitTerminator ';' (input.drop 1)).filterMap fun p =>
    (findSub ['='] p).map fun pos => (p.take pos, p.drop (pos + 1))

/-! ## `src/twitch/color.rs` -/

/-- A 24-bit triplet for hex colors (`RGB` in `src/twitch/color.rs`);
components are `u8`, modelled as `Nat` masked to 8 bits by construction. -/
structure RGB where
  r : Nat
  g : Nat
  b : Nat
deriving DecidableEq, Repr

/-- `RGB::default()`: white. -/
def RGB.default : RGB := ⟨255, 255, 255⟩

/-- Value of a hexadecimal digit, case-insensitive (the digit set accepted
by Rust `u32::from_str_radix` at radix 16), computed from the code point:
48-57 are the decimal digits, 97-102 the lowercase and 65-70 the uppercase
letters `a`-`f`. -/
def hexDigit (c : Char) : Option Nat :=
  if 48 ≤ c.toNat ∧ c.toNat ≤ 57 then some (c.toNat - 48)
  else if 97 ≤ c.toNat ∧ c.toNat ≤ 102 then some (c.toNat - 87)
  else if 65 ≤ c.toNat ∧ c.toNat ≤ 70 then some (c.toNat - 55)
  else none

/-- Hex digits folded into a value; `none` as soon as a non-digit occurs. -/
def hexValue : List Char → Nat → Option Nat
  | [], acc => some acc
  | c :: rest, acc =>
    match hexDigit c with
    | some d => hexValue rest (acc * 16 + d)
    | none => none

/-- Rust `u32::from_str_radix(input, 16)`: an optional leading `+`, then at
least one hex digit; errors on an empty digit string, a bad digit, or
overflow past `u32`. -/
def fromStrRadix16 (input : List Char) : Option Nat :=
  let digits := if input.head? = some '+' then input.drop 1 else input
  if digits = [] then none
  else
    match hexValue digits 0 with
    | some v => if v < 2 ^ 32 then some v else none
    | none => none

/-- `RGB::from_hex` from `src/twitch/color.rs`: accepts `#RRGGBB` (7 chars)
or `RRGGBB` (6 chars) after trimming, defaulting to white otherwise. -/
def RGB.fromHex (input0 : List Char) : RGB :=
  let input := trimL input0
  let body : Option (List Char) :=
    match input.head?, input.length with
    | some '#', 7 => some (input.drop 1)
    | _, 6 => some input
    | _, _ => none
  match body with
  | none => RGB.default
  | some s =>
    match fromStrRadix16 s with
    | some v => ⟨(v >>> 16) % 256, (v >>> 8) % 256, v % 256⟩
    | none => RGB.default

/-- The `Trovo` color enum from `src/twitch/color.rs`: 15 named presets and
a custom `Turbo` color. -/
inductive TrovoColor where
  | blue | blueViolet | cadetBlue | chocolate | coral | dodgerBlue
  | firebrick | goldenRod | green | hotPink | orangeRed | red
  | seaGreen | springGreen | yellowGreen
  | turbo (rgb : RGB)
deriving DecidableEq, Repr

/-- `trovo_colors()`: the const preset table. -/
def trovoColors : List (TrovoColor × RGB) :=
  [ (.blue, ⟨0x00, 0x00, 0xFF⟩),
    (.blueViolet, ⟨0x8A, 0x2B, 0xE2⟩),
    (.cadetBlue, ⟨0x5F, 0x9E, 0xA0⟩),
    (.chocolate, ⟨0xD2, 0x69, 0x1E⟩),
    (.coral, ⟨0xFF, 0x7F, 0x50⟩),
    (.dodgerBlue, ⟨0x1E, 0x90, 0xFF⟩),
    (.firebrick, ⟨0xB2, 0x22, 0x22⟩),
    (.goldenRod, ⟨0xDA, 0xA5, 0x20⟩),
    (.green, ⟨0x00, 0x80, 0x00⟩),
    (.hotPink, ⟨0xFF, 0x69, 0xB4⟩),
    (.orangeRed, ⟨0xFF, 0x45, 0x00⟩),
    (.red, ⟨0xFF, 0x00, 0x00⟩),
    (.seaGreen, ⟨0x2E, 0x8B, 0x57⟩),
    (.springGreen, ⟨0x00, 0xFF, 0x7F⟩),
    (.yellowGreen, ⟨0xAD, 0xFF, 0x2F⟩) ]

/-- The accepted spellings of each named preset, in source order of the
`impl From<&str> for Trovo` match arms. -/
def presetSpellings : List (List String × TrovoColor) :=
  [ (["Blue", "blue"], .blue),
    (["BlueViolet", "blue_violet", "blueviolet", "blue violet"], .blueViolet),
    (["CadetBlue", "cadet_blue", "cadetblue", "cadet blue"], .cadetBlue),
    (["Chocolate", "chocolate"], .chocolate),
    (["Coral", "coral"], .coral),
    (["DodgerBlue", "dodger_blue", "dodgerblue", "dodger blue"], .dodgerBlue),
    (["Firebrick", "firebrick"], .firebrick),
    (["GoldenRod", "golden_rod", "goldenrod", "golden rod"], .goldenRod),
    (["Green", "green"], .green),
    (["HotPink", "hot_pink", "hotpink", "hot pink"], .hotPink),
    (["OrangeRed", "orange_red", "orangered", "orange red"], .orangeRed),
    (["Red", "red"], .red),
    (["SeaGreen", "sea_green", "seagreen", "sea green"], .seaGreen),
    (["SpringGreen", "spring_green", "springgreen", "spring green"], .springGreen),
    (["YellowGreen", "yellow_green", "yellowgreen", "yellow green"], .yellowGreen) ]

/-- First preset whose spelling list contains `s`. -/
def findPreset (s : String) : Option TrovoColor :=
  (presetSpellings.find? fun p => s ∈ p.1).map (·.2)

/-- `impl From<Trovo> for RGB` from `src/twitch/color.rs` (lines 55-67):
a `Turbo` carries its own RGB; a named preset is looked up in
`trovo_colors()`, defaulting to white when absent. -/
def RGB.fromTrovo (color : TrovoColor) : RGB :=
  match color with
  | .turbo rgb => rgb
  | c => (((trovoColors.find? fun p => p.1 == c).map fun p => p.2).getD RGB.default)

/-- `impl From<&str> for Trovo` from `src/twitch/color.rs`: the named preset
spellings map to their variants, and every other input falls through to
`Trovo::Turbo(RGB::from_hex(s))`.  The conversion is total: it has no error
case. -/
def TrovoColor.fromStr (s : String) : TrovoColor :=
  match findPreset s with
  | some c => c
  | none => .turbo (RGB.fromHex s.toList)

example : TrovoColor.fromStr "blue" = .blue := by decide
example : TrovoColor.fromStr "HotPink" = .hotPink := by decide
example : TrovoColor.fromStr "#FF69B4" = .turbo ⟨0xFF, 0x69, 0xB4⟩ := by decide
example : TrovoColor.fromStr "" = .turbo ⟨255, 255, 255⟩ := by decide
example : TrovoColor.fromStr "purple" = .turbo ⟨255, 255, 255⟩ := by decide
example : Tags.parse "@a=1;foo;b=2".toList =
    [("a".toList, "1".toList), ("b".toList, "2".toList)] := by decide
example : Tags.parse "@key=".toList = [("key".toList, "".toList)] := by decide
example : Tags.parse "@foo".toList = [] := by decide

/-! ## `src/irc/message.rs` -/

/-- Modelled from the spec: `irc::types::Prefix` (the file `src/irc/types.rs`
is absent; only its users remain).  Per section 4.1: a prefix containing `!`
is `user{nick!user@host}`, otherwise `server{host}`. -/
inductive Pfx where
  | user (nick user host : String)
  | server (host : String)
deriving DecidableEq, Repr

/-- Modelled from the spec: `Prefix::parse` over the full remaining input
(the source passes the whole slice and reads up to the first space). -/
def Pfx.parse (input : List Char) : Option Pfx :=
  let s := (input.drop 1).takeWhile (fun c => c ≠ ' ')
  match findSub ['!'] s with
  | some i =>
    let nick := s.take i
    let rest := s.drop (i + 1)
    match findSub ['@'] rest with
    | some j => some (.user (String.mk nick) (String.mk (rest.take j))
        (String.mk (rest.drop (j + 1))))
    | none => some (.user (String.mk nick) "" "")
  | none => some (.server (String.mk s))

/-- The `Parts` helper of `src/irc/message.rs`: `head` is the first
space-delimited token before the first `" :"`, `args` the remaining tokens
stored reversed (used as a stack), `tail` the data after the first `" :"`
when non-empty. -/
structure Parts where
  head : String
  args : List String
  tail : Option String
deriving DecidableEq, Repr

/-- `Parts::new`.  The source `expect`s that the input is non-empty and has
a head token; those panic paths (unreachable from `Message::parse`) are
modelled by empty results. -/
def Parts.new (input : List Char) : Parts :=
  let index := findSub [' ', ':'] input
  let headPart :=
    match index with
    | some i => input.take i
    | none => input
  let tail :=
    (index.map fun i => input.drop (i + 2)).filter (fun s => s ≠ [])
  let tokens := splitTerminator ' ' headPart
  { head := String.mk (tokens.headD [])
    args := (tokens.drop 1).reverse.map String.mk
    tail := tail.map String.mk }

/-- The `Message` enum of `src/irc/message.rs`. -/
inductive Message where
  | ping (token : String)
  | cap (acknowledge : Bool) (cap : String)
  | connected (name : String)
  | ready (name : String)
  | unknown (pfx : Option Pfx) (tags : List (List Char × List Char))
      (head : String) (args : List String) (tail : Option String)
deriving DecidableEq, Repr

/-- `Message::parse` from `src/irc/message.rs`, on `List Char`.
Follows the source exactly: trim, reject empty, strip an `@`-tag segment
(failing when no space follows), strip a `:`-prefix segment (failing when
no space follows), split the rest with `Parts`, then match the head token.
The `CAP` arm `expect`s a tail in the source (a panic); that path is
modelled as a failed parse. -/
def Message.parseL (input0 : List Char) : Option Message :=
  let input := trimL input0
  if input = [] then none
  else
    let tagStep : Option (List (List Char × List Char) × List Char) :=
      if input.head? = some '@' then
        (findSub [' '] input).map fun pos =>
          (Tags.parse (input.take pos), input.drop (pos + 1))
      else some ([], input)
    match tagStep with
    | none => none
    | some (tags, input1) =>
      let pfxStep : Option (Option Pfx × List Char) :=
        if input1.head? = some ':' then
          (findSub [' '] input1).map fun pos =>
            (Pfx.parse input1, input1.drop (pos + 1))
        else some (none, input1)
      match pfxStep with
      | none => none
      | some (pfx, input2) =>
        let parts := Parts.new input2
        if parts.head = "PING" then
          parts.tail.map fun t => .ping t
        else if parts.head = "CAP" then
          parts.tail.map fun t =>
            .cap ((parts.args.head?.map (fun d => d == "ACK")).getD false) t
        else if parts.head = "001" then
          parts.args.getLast?.map fun n => .connected n
        else if parts.head = "376" then
          parts.args.getLast?.map fun n => .ready n
        else
          some (.unknown pfx tags parts.head parts.args.reverse parts.tail)

/-- `Message::parse` at the `String` surface. -/
def Message.parse (input : String) : Option Message :=
  Message.parseL input.toList

example : Message.parse "PING :tmi.trovo.tv" = some (.ping "tmi.trovo.tv") := by
  decide
example : Message.parse ":tmi.trovo.tv CAP * ACK :trovo.tv/tags" =
    some (.cap true "trovo.tv/tags") := by decide
example : Message.parse ":tmi.trovo.tv 001 shaken_bot :Welcome, GLHF!" =
    some (.connected "shaken_bot") := by decide
example : Message.parse "" = none := by decide

/-! ## `src/twitch/client.rs`: the sync client's auto-PONG -/

/-- The auto-PONG step of `Client::read_message`
(`src/twitch/client.rs` lines 202-223): the line read from the socket is
`trim_end`ed and parsed; when the parsed message is `Ping { token }` the
client calls `write_line(format("PONG :{token}"))`, and `write_line`
(lines 321-333) writes its argument followed by `\r\n`.  The result is the
outbound line produced for the frame, `none` when the frame is not a PING. -/
def Client.autoPongL (buf : List Char) : Option String :=
  match Message.parseL (trimRightL buf) with
  | some (.ping token) => some ("PONG :" ++ token ++ "\r\n")
  | _ => none

/-- `Client.autoPongL` at the `String` surface. -/
def Client.autoPong (buf : String) : Option String :=
  Client.autoPongL buf.toList

/-- Modelled from the spec: `Writer::pong` (the writer module used by
`Runner::run` is absent from the sources).  Per section 4.7, the runner's
internal ping subscription "responds with `PONG :<token>` enqueued to the
writer"; the enqueued line is the PONG command serialized with the
terminating CRLF. -/
def Writer.pong (token : String) : String :=
  "PONG :" ++ token ++ "\r\n"

example : Client.autoPong "PING :tmi.trovo.tv\r\n" = some "PONG :tmi.trovo.tv\r\n" := by
  decide

/-! ## `src/decode/mod.rs` and the raw-message parser -/

/-- The decoder errors, from the spec's section 4.1 (the file
`src/decode/error.rs` is absent): `Incomplete` when no CRLF is found,
`EmptyCommand` when the command token is missing, `MalformedTags` when a
tag segment has no key.  `incompleteMessage` carries the position, as in
the `decode_one` call `ParseError::IncompleteMessage { pos: 0 }`. -/
inductive ParseError where
  | incompleteMessage (pos : Nat)
  | emptyCommand
  | malformedTags
deriving DecidableEq, Repr

/-- The raw message record of the decoder (`messages::Raw`): tags, optional
origin, command token, argument tokens, optional trailing data. -/
structure RawMessage where
  tags : List (String × String)
  pfx : Option Pfx
  command : String
  args : List String
  data : Option String
deriving DecidableEq, Repr

/-- Modelled from the spec: tag parsing for the decoder
(`src/decode/parser.rs` is absent).  Section 4.1: "parse tags as
semicolon-delimited key=value (empty value legal; key without `=` legal
with empty value)" and "`MalformedTags` if a tag segment has no key". -/
def parseTagsSpec (s : List Char) : Option (List (String × String)) :=
  (splitTerminator ';' s).mapM fun seg =>
    if seg.head? = none ∨ seg.head? = some '=' then none
    else
      match findSub ['='] seg with
      | some i => some (String.mk (seg.take i), String.mk (seg.drop (i + 1)))
      | none => some (String.mk seg, "")

/-- Modelled from the spec: argument splitting for the decoder.
Section 4.1 step 4: arguments are space-delimited until an argument begins
with `:`; that argument and everything after it (spaces included) is the
trailing data with the leading `:` removed. -/
def argsFromTokens : List (List Char) → List String × Option (List Char)
  | [] => ([], none)
  | t :: rest =>
    if t.head? = some ':' then
      ([], some (t.drop 1 ++ (rest.map (fun r => ' ' :: r)).flatten))
    else
      let (a, d) := argsFromTokens rest
      (String.mk t :: a, d)

/-- Modelled from the spec: the decoder's `Message::parse`
(`src/decode/message.rs` is absent; `decode_one` below is its only caller
in the sources).  The frame arrives with its CRLF; parse order follows
section 4.1: strip CRLF, tags after `@` up to a space, a `:`-led origin up
to a space, then the command token, then arguments and trailing data. -/
def RawMessage.parse (frame : List Char) : Except ParseError RawMessage :=
  let s :=
    if (frame.reverse.take 2) = ['\n', '\r'] then frame.dropLast.dropLast
    else frame
  let tagStep : Except ParseError (List (String × String) × List Char) :=
    if s.head? = some '@' then
      match parseTagsSpec ((s.drop 1).takeWhile (fun c => c ≠ ' ')) with
      | some t => .ok (t, ((s.drop 1).dropWhile (fun c => c ≠ ' ')).drop 1)
      | none => .error .malformedTags
    else .ok ([], s)
  match tagStep with
  | .error e => .error e
  | .ok (tags, s1) =>
    let (pfx, s2) :=
      if s1.head? = some ':' then
        (Pfx.parse s1, (s1.dropWhile (fun c => c ≠ ' ')).drop 1)
      else (none, s1)
    let cmd := s2.takeWhile (fun c => c ≠ ' ')
    if cmd = [] then .error .emptyCommand
    else
      let rest := (s2.dropWhile (fun c => c ≠ ' ')).drop 1
      let (args, data) := argsFromTokens (splitChar ' ' rest)
      let data := if rest = [] then none else data
      .ok ⟨tags, pfx, String.mk cmd, args, data.map String.mk⟩

/-- `decode_one` from `src/decode/mod.rs` (lines 63-69): find the first
CRLF; the returned offset is `0` when the CRLF ends the input and the index
just past the CRLF otherwise; the frame up to and including the CRLF is
parsed. -/
def decodeOne (input : List Char) : Except ParseError (Nat × RawMessage) :=
  match findSub ['\r', '\n'] input with
  | none => .error (.incompleteMessage 0)
  | some pos =>
    let next := if pos + 2 = input.length then 0 else pos + 2
    (RawMessage.parse (input.take (pos + 2))).map fun msg => (next, msg)

/-- Modelled from the spec: the `decode` iterator (`ParseIter` in the
absent `src/decode/parser.rs`), driven by `decode_one` as the module
documentation shows: each step yields the parsed message and continues at
the returned offset; an offset of `0` or an error ends the iteration. -/
def decodeListGo : Nat → List Char → List (Except ParseError RawMessage)
  | 0, _ => []
  | _, [] => []
  | fuel + 1, s =>
    match decodeOne s with
    | .error e => [.error e]
    | .ok (0, m) => [.ok m]
    | .ok (next + 1, m) => .ok m :: decodeListGo fuel (s.drop (next + 1))

/-- `decode` from `src/decode/mod.rs` at the `String` surface. -/
def decodeList (input : String) : List (Except ParseError RawMessage) :=
  decodeListGo input.toList.length input.toList

example :
    decodeOne ":test!test@test JOIN #museun\r\n".toList =
      .ok (0, ⟨[], some (.user "test" "test" "test"), "JOIN", ["#museun"], none⟩) := by
  rfl
example :
    (decodeOne (":test!test@test JOIN #museun\r\n:test!test@test JOIN #shaken_bot\r\n".toList)).map
      (fun p => p.1) = .ok 30 := by rfl
example : decodeOne "no crlf here".toList = .error (.incompleteMessage 0) := by rfl
example : decodeOne "\r\n".toList = .error .emptyCommand := by rfl

/-! ## `src/ng/messages/cap.rs` -/

/-- The typed-projection errors used by `Cap::from_irc`
(`InvalidMessage` in the ng layer). -/
inductive InvalidMessage where
  | invalidCommand (expected got : String)
  | expectedData
  | expectedArg (index : Nat)
deriving DecidableEq, Repr

/-- The typed `Cap` message of `src/ng/messages/cap.rs`. -/
structure Cap where
  capability : String
  acknowledged : Bool
deriving DecidableEq, Repr

/-- `Cap::from_irc` from `src/ng/messages/cap.rs` (lines 19-35):
`expect_command(CAP)`, `capability = expect_data()` (the trailing data),
`acknowledged = expect_arg(1) == "ACK"` (the second argument). -/
def Cap.fromIrc (msg : RawMessage) : Except InvalidMessage Cap :=
  if msg.command ≠ "CAP" then .error (.invalidCommand "CAP" msg.command)
  else
    match msg.data with
    | none => .error .expectedData
    | some d =>
      match msg.args.get? 1 with
      | none => .error (.expectedArg 1)
      | some a => .ok ⟨d, a == "ACK"⟩

example :
    (RawMessage.parse ":tmi.trovo.tv CAP * ACK :trovo.tv/tags\r\n".toList).bind
        (fun m => (Cap.fromIrc m).mapError fun _ => ParseError.emptyCommand) =
      .ok ⟨"trovo.tv/tags", true⟩ := by rfl

/-! ## `src/client/dispatcher.rs`: the subscription registry

The registry is keyed by the event type (`TypeId` in the source); the
events are the twenty types listed in the dispatcher's mapping table, so
the `HashMap` with all keys present is modelled as a total function from
`Event` to the subscriber list.  A subscriber is a `(private, sender)`
pair; a sender is abstracted to its observable state: whether its receiver
was dropped (`closed`) and the messages delivered so far (`inbox`).  The
per-variant typed conversion applied inside `try_send` (the
`crate::messages` parsers, absent from the sources) is abstracted by
delivering the dispatched value itself. -/

/-- The event keys of the client dispatcher's registry. -/
inductive Event where
  | ircReady | ready | cap | clearChat | clearMsg | globalUserState
  | hostTarget | join | mode | names | notice | part | ping | pong
  | privmsg | raw | reconnect | roomState | userState | all
deriving DecidableEq, Repr

/-- Enumeration of every event key (the key set of the registry built by
`events::build_event_map`). -/
def allEvents : List Event :=
  [.ircReady, .ready, .cap, .clearChat, .clearMsg, .globalUserState,
   .hostTarget, .join, .mode, .names, .notice, .part, .ping, .pong,
   .privmsg, .raw, .reconnect, .roomState, .userState, .all]

/-- One subscription: the `(bool, sender)` pair of `EventRegistration`.
`internal` is the `private` flag; `closed` records whether the receiving
side was dropped; `inbox` the messages delivered so far. -/
structure Sub (α : Type) where
  internal : Bool
  closed : Bool
  inbox : List α
deriving DecidableEq, Repr

/-- The registry: `event_map: HashMap<TypeId, Vec<(bool, sender)>>`. -/
def EventMap (α : Type) : Type := Event → List (Sub α)

/-- `count_subscribers::<T>` (lines 286-295): non-private entries of one key. -/
def countSubscribers {α} (m : EventMap α) (e : Event) : Nat :=
  ((m e).filter fun s => !s.internal).length

/-- `count_subscribers_all` (lines 298-304): non-private entries summed
over every key. -/
def countSubscribersAll {α} (m : EventMap α) : Nat :=
  (allEvents.map fun e => countSubscribers m e).sum

/-- `clear_subscriptions_all` (lines 328-341): every list retains exactly
its private entries. -/
def clearSubscriptionsAll {α} (m : EventMap α) : EventMap α :=
  fun e => (m e).filter fun s => s.internal

/-- `subscribe_internal::<T>(private)` (lines 263-283): pushes a fresh open
sender, flagged private or not, onto the list for the key. -/
def subscribeInternal {α} (m : EventMap α) (e : Event) (internal : Bool) :
    EventMap α :=
  fun e' => if e' = e then m e ++ [⟨internal, false, []⟩] else m e'

/-- The body of `try_send::<T>` (lines 353-380): each sender receives the
owned message; `senders.retain(try_send)` drops the senders whose receiver
is closed, and delivery appends the message to the inbox of the others. -/
def trySendTo {α} (l : List (Sub α)) (msg : α) : List (Sub α) :=
  l.filterMap fun s =>
    if s.closed then none else some { s with inbox := s.inbox ++ [msg] }

/-- `try_send::<T>` on the registry: only the list at `e` changes. -/
def trySendEvent {α} (e : Event) (msg : α) (m : EventMap α) : EventMap α :=
  fun e' => if e' = e then trySendTo (m e) msg else m e'

/-- The command-token match of `Dispatcher::dispatch` (lines 391-412): the
primary variant for a command token, `none` for unrecognized commands.
The `HOSTARGET` spelling is the source's. -/
def clientPrimary (cmd : String) : Option Event :=
  if cmd = "001" then some .ircReady
  else if cmd = "PING" then some .ping
  else if cmd = "PONG" then some .pong
  else if cmd = "353" then some .names
  else if cmd = "366" then some .names
  else if cmd = "376" then some .ready
  else if cmd = "JOIN" then some .join
  else if cmd = "PART" then some .part
  else if cmd = "PRIVMSG" then some .privmsg
  else if cmd = "CAP" then some .cap
  else if cmd = "HOSTARGET" then some .hostTarget
  else if cmd = "GLOBALUSERSTATE" then some .globalUserState
  else if cmd = "NOTICE" then some .notice
  else if cmd = "CLEARCHAT" then some .clearChat
  else if cmd = "CLEARMSG" then some .clearMsg
  else if cmd = "RECONNECT" then some .reconnect
  else if cmd = "ROOMSTATE" then some .roomState
  else if cmd = "USERSTATE" then some .userState
  else if cmd = "MODE" then some .mode
  else none

/-- `Dispatcher::dispatch` from `src/client/dispatcher.rs` (lines 383-417):
`try_send` to the primary variant's registry when the command matches, then
unconditionally to the `All` and `Raw` registries. -/
def Dispatcher.dispatch {α} (cmd : String) (msg : α) (m : EventMap α) :
    EventMap α :=
  let m1 :=
    match clientPrimary cmd with
    | some e => trySendEvent e msg m
    | none => m
  trySendEvent .raw msg (trySendEvent .all msg m1)

/-! ## `src/dispatcher.rs`: the event-map dispatcher -/

/-- The event keys of the `src/dispatcher.rs` registry (the ng message
types); `ircMessage` is the `IrcMessage` catch-all, `allCommands` the sum
type. -/
inductive NgEvent where
  | ircReady | ready | cap | clearChat | clearMsg | globalUserState
  | hostTarget | join | notice | part | ping | pong | privmsg
  | reconnect | roomState | userNotice | userState | whisper
  | ircMessage | allCommands
deriving DecidableEq, Repr

/-- The match of `Dispatcher::dispatch` in `src/dispatcher.rs`
(lines 63-104): a recognized command token goes only to its own registry;
only the wildcard arm feeds the `IrcMessage` and `AllCommands` registries.
The command constants (`IrcMessage::IRC_READY` etc., whose defining module
is absent) are the command tokens of section 6 of the spec: `001`, `376`
for the ready pair and the literal command words otherwise; there is no
arm for the numerics `353`/`366`. -/
def ngDispatchTargets (cmd : String) : List NgEvent :=
  if cmd = "001" then [.ircReady]
  else if cmd = "376" then [.ready]
  else if cmd = "CAP" then [.cap]
  else if cmd = "CLEARCHAT" then [.clearChat]
  else if cmd = "CLEARMSG" then [.clearMsg]
  else if cmd = "GLOBALUSERSTATE" then [.globalUserState]
  else if cmd = "HOSTTARGET" then [.hostTarget]
  else if cmd = "JOIN" then [.join]
  else if cmd = "NOTICE" then [.notice]
  else if cmd = "PART" then [.part]
  else if cmd = "PING" then [.ping]
  else if cmd = "PONG" then [.pong]
  else if cmd = "PRIVMSG" then [.privmsg]
  else if cmd = "RECONNECT" then [.reconnect]
  else if cmd = "ROOMSTATE" then [.roomState]
  else if cmd = "USERNOTICE" then [.userNotice]
  else if cmd = "USERSTATE" then [.userState]
  else if cmd = "WHISPER" then [.whisper]
  else [.ircMessage, .allCommands]

/-! ## `Dispatcher::wait_for` (lines 89-116) -/

/-- The dispatcher state seen by `wait_for`: the registry plus the
per-variant single-slot cache (`cached: AnyMap<Box<dyn Any>>`). -/
structure DispatcherState (α : Type) where
  eventMap : EventMap α
  cached : Event → Option α

/-- The observable result of one `wait_for` call: a cache hit returns
without suspending, otherwise the call awaits the next item of a fresh
subscription (or fails when the stream ends). -/
inductive WaitOutcome (α : Type) where
  | immediate (v : α)
  | awaited (v : α)
  | disconnected

/-- `Dispatcher::wait_for::<T>` from `src/client/dispatcher.rs`
(lines 89-116): return the cached value when present; otherwise register a
`subscribe_internal::<T>(false)` stream, await its next item (`incoming`
stands for what `.next().await` yields), cache and return it;
`ClientDisconnected` when the stream yields nothing. -/
def Dispatcher.waitFor {α} (st : DispatcherState α) (e : Event)
    (incoming : Option α) : WaitOutcome α × DispatcherState α :=
  match st.cached e with
  | some v => (.immediate v, st)
  | none =>
    let st1 := { st with eventMap := subscribeInternal st.eventMap e false }
    match incoming with
    | some v =>
      (.awaited v,
       { st1 with cached := fun e' => if e' = e then some v else st1.cached e' })
    | none => (.disconnected, st1)

/-! ## `src/runner/runner.rs`: the run loop -/

/-- The termination status of `Runner::run` (`Status`). -/
inductive Status where
  | eof
  | canceled
deriving DecidableEq, Repr

/-- The abort branch of the `Runner::run` select (lines 88-91): on the
abort notification the runner calls `clear_subscriptions_all` and breaks
with `Status::Canceled`. -/
def Runner.quitStep {α} (m : EventMap α) : Status × EventMap α :=
  (.canceled, clearSubscriptionsAll m)

/-- The read branch of `Runner::run` (lines 106-111), iterating the decode
results: `let msg = msg?` propagates a decode error out of `run` (ending
the loop with `Err`), a decoded message is dispatched. -/
def Runner.processGo : List (Except ParseError RawMessage) →
    EventMap RawMessage → Except ParseError (EventMap RawMessage)
  | [], m => .ok m
  | .error e :: _, _ => .error e
  | .ok msg :: rest, m =>
    Runner.processGo rest (Dispatcher.dispatch msg.command msg m)

/-- The read branch applied to the buffer `read_line` filled:
`for msg in decode(&buffer) { let msg = msg?; ...; dispatch(&msg); }`. -/
def Runner.processBuffer (buffer : String) (m : EventMap RawMessage) :
    Except ParseError (EventMap RawMessage) :=
  Runner.processGo (decodeList buffer) m

/-! ## Registry lemmas -/

lemma filter_internal_twice {α} (l : List (Sub α)) :
    (l.filter fun s => s.internal).filter (fun s => !s.internal) = [] := by
  induction l with
  | nil => rfl
  | cons s t ih =>
    by_cases h : s.internal <;> simp [List.filter_cons, h, ih]

lemma countSubscribers_clearAll {α} (m : EventMap α) (e : Event) :
    countSubscribers (clearSubscriptionsAll m) e = 0 := by
  simp [countSubscribers, clearSubscriptionsAll, filter_internal_twice]

lemma countSubscribersAll_clearAll {α} (m : EventMap α) :
    countSubscribersAll (clearSubscriptionsAll m) = 0 := by
  simp [countSubscribersAll, countSubscribers_clearAll]

lemma clearAll_preserves_internal {α} (m : EventMap α) (e : Event) (s : Sub α)
    (hs : s ∈ m e) (hint : s.internal = true) :
    s ∈ clearSubscriptionsAll m e := by
  simp [clearSubscriptionsAll, List.mem_filter, hs, hint]

/-- A concrete registry with one private (internal) ping subscription. -/
def onePrivatePing : EventMap Nat :=
  fun e => if e = .ping then [⟨true, false, []⟩] else []

/-- **C4.** For every dispatcher state, after `clear_subscriptions_all()`
the count of user-visible (non-private) subscribers is zero and every
subscription registered as private (internal) is still present in the
registry. -/
theorem claim_C4_clear_all {α} (m : EventMap α) :
    countSubscribersAll (clearSubscriptionsAll m) = 0 ∧
    ∀ e s, s ∈ m e → s.internal = true → s ∈ clearSubscriptionsAll m e :=
  ⟨countSubscribersAll_clearAll m,
   fun e s hs hint => clearAll_preserves_internal m e s hs hint⟩

/-- Witness for C4 at a concrete registry holding one internal subscription. -/
theorem claim_C4_clear_all_witness :
    countSubscribersAll (clearSubscriptionsAll onePrivatePing) = 0 ∧
    (⟨true, false, []⟩ : Sub Nat) ∈ clearSubscriptionsAll onePrivatePing .ping :=
  ⟨(claim_C4_clear_all onePrivatePing).1,
   (claim_C4_clear_all onePrivatePing).2 .ping ⟨true, false, []⟩ (by decide) rfl⟩

/-- **C9 counterexample.** The claim says the quit signal removes every
subscription, private (internal) ones included.  On the code the quit
branch calls `clear_subscriptions_all`, which retains private entries: a
registry holding one private ping subscription still holds it after the
quit step. -/
theorem claim_C9_counterexample :
    (Runner.quitStep onePrivatePing).1 = .canceled ∧
    (Runner.quitStep onePrivatePing).2 .ping ≠ [] ∧
    (⟨true, false, []⟩ : Sub Nat) ∈ (Runner.quitStep onePrivatePing).2 .ping := by
  refine ⟨rfl, ?_, ?_⟩ <;> decide

/-- **C9 (amended).** When the quit signal fires the runner terminates with
`Canceled` and every user-visible subscription is removed; subscriptions
registered as private (internal) remain in the registry. -/
theorem claim_C9_quit_cancels {α} (m : EventMap α) :
    (Runner.quitStep m).1 = .canceled ∧
    countSubscribersAll (Runner.quitStep m).2 = 0 ∧
    ∀ e s, s ∈ m e → s.internal = true → s ∈ (Runner.quitStep m).2 e :=
  ⟨rfl, countSubscribersAll_clearAll m,
   fun e s hs hint => clearAll_preserves_internal m e s hs hint⟩

/-- Witness for C9 at the same concrete registry. -/
theorem claim_C9_quit_cancels_witness :
    (Runner.quitStep onePrivatePing).1 = .canceled ∧
    countSubscribersAll (Runner.quitStep onePrivatePing).2 = 0 ∧
    (⟨true, false, []⟩ : Sub Nat) ∈ (Runner.quitStep onePrivatePing).2 .ping :=
  ⟨(claim_C9_quit_cancels onePrivatePing).1,
   (claim_C9_quit_cancels onePrivatePing).2.1,
   (claim_C9_quit_cancels onePrivatePing).2.2 .ping ⟨true, false, []⟩ (by decide) rfl⟩

/-! ## C5: the `wait_for` cache -/

/-- **C5.** If a `wait_for<T>` call completed with value `v` (either from
the cache or by awaiting the first occurrence), a second `wait_for<T>` on
the resulting dispatcher state returns `v` as a cache hit, immediately and
regardless of what the subscription stream would yield, and leaves the
state unchanged. -/
theorem claim_C5_wait_for_cached {α} (st : DispatcherState α) (e : Event)
    (incoming : Option α) (v : α) (out : WaitOutcome α)
    (st' : DispatcherState α)
    (h : Dispatcher.waitFor st e incoming = (out, st'))
    (hv : out = .immediate v ∨ out = .awaited v) :
    ∀ incoming', Dispatcher.waitFor st' e incoming' = (.immediate v, st') := by
  intro inc'
  unfold Dispatcher.waitFor at h ⊢
  cases hc : st.cached e with
  | some w =>
    rw [hc] at h
    obtain ⟨ho, hst⟩ := Prod.mk.injEq .. ▸ h
    subst hst
    rcases hv with hv | hv <;> rw [hv] at ho
    · cases ho; rw [hc]
    · cases ho
  | none =>
    rw [hc] at h
    cases hi : incoming with
    | some u =>
      rw [hi] at h
      obtain ⟨ho, hst⟩ := Prod.mk.injEq .. ▸ h
      rcases hv with hv | hv <;> rw [hv] at ho
      · cases ho
      · cases ho
        subst hst
        simp
    | none =>
      rw [hi] at h
      obtain ⟨ho, _⟩ := Prod.mk.injEq .. ▸ h
      rcases hv with hv | hv <;> rw [hv] at ho <;> cases ho

/-- An empty dispatcher state over `Nat` payloads. -/
def emptyState : DispatcherState Nat :=
  { eventMap := fun _ => [], cached := fun _ => none }

/-- Witness for C5: after a first `wait_for` that awaited the value `7`,
the second call returns `7` immediately. -/
theorem claim_C5_wait_for_cached_witness :
    Dispatcher.waitFor (Dispatcher.waitFor emptyState .ircReady (some 7)).2
        .ircReady none =
      (.immediate 7, (Dispatcher.waitFor emptyState .ircReady (some 7)).2) :=
  claim_C5_wait_for_cached emptyState .ircReady (some 7) 7 _ _ rfl
    (Or.inr rfl) none

/-! ## C3: dispatch fan-out -/

lemma ite_ne_aux {α} (c : Prop) [Decidable c] (a b x : α)
    (ha : a ≠ x) (hb : b ≠ x) : (if c then a else b) ≠ x := by
  by_cases h : c <;> simp [h, ha, hb]

lemma clientPrimary_ne_all (cmd : String) : clientPrimary cmd ≠ some .all := by
  unfold clientPrimary
  repeat' apply ite_ne_aux
  all_goals decide

lemma clientPrimary_ne_raw (cmd : String) : clientPrimary cmd ≠ some .raw := by
  unfold clientPrimary
  repeat' apply ite_ne_aux
  all_goals decide

lemma mem_trySendTo {α} (l : List (Sub α)) (msg : α) (s : Sub α)
    (hs : s ∈ l) (hc : s.closed = false) :
    { s with inbox := s.inbox ++ [msg] } ∈ trySendTo l msg := by
  simp only [trySendTo, List.mem_filterMap]
  exact ⟨s, hs, by simp [hc]⟩

lemma dispatch_at_all {α} (cmd : String) (msg : α) (m : EventMap α) :
    Dispatcher.dispatch cmd msg m .all = trySendTo (m .all) msg := by
  unfold Dispatcher.dispatch trySendEvent
  have hne : Event.all ≠ Event.raw := by decide
  cases hp : clientPrimary cmd with
  | none => simp [hne]
  | some e =>
    have : Event.all ≠ e := fun h => clientPrimary_ne_all cmd (h ▸ hp)
    simp [hne, this]

lemma dispatch_at_raw {α} (cmd : String) (msg : α) (m : EventMap α) :
    Dispatcher.dispatch cmd msg m .raw = trySendTo (m .raw) msg := by
  unfold Dispatcher.dispatch trySendEvent
  have hne : Event.raw ≠ Event.all := by decide
  cases hp : clientPrimary cmd with
  | none => simp [hne]
  | some e =>
    have : Event.raw ≠ e := fun h => clientPrimary_ne_raw cmd (h ▸ hp)
    simp [hne, this]

lemma dispatch_at_primary {α} (cmd : String) (msg : α) (m : EventMap α)
    (e : Event) (hp : clientPrimary cmd = some e) :
    Dispatcher.dispatch cmd msg m e = trySendTo (m e) msg := by
  unfold Dispatcher.dispatch trySendEvent
  have h1 : e ≠ Event.raw := fun h => clientPrimary_ne_raw cmd (h ▸ hp)
  have h2 : e ≠ Event.all := fun h => clientPrimary_ne_all cmd (h ▸ hp)
  rw [hp]
  simp [h1, h2]

/-- **C3 (amended).** In the client dispatcher
(`src/client/dispatcher.rs`), the claim holds: every dispatched message is
`try_send`-delivered to the primary variant's registry (with `001` mapped
to `IrcReady`, `353`/`366` to `Names`, `376` to `Ready`) and,
unconditionally, to the `All` and `Raw` registries, where each open
subscriber receives the message and closed subscribers are dropped.  (In
the event-map dispatcher of `src/dispatcher.rs` the catch-all registries
are only fed for unmatched commands — see the counterexample.) -/
theorem claim_C3_dispatch_fanout {α} (cmd : String) (msg : α)
    (m : EventMap α) :
    Dispatcher.dispatch cmd msg m .all = trySendTo (m .all) msg ∧
    Dispatcher.dispatch cmd msg m .raw = trySendTo (m .raw) msg ∧
    clientPrimary "001" = some .ircReady ∧
    clientPrimary "353" = some .names ∧
    clientPrimary "366" = some .names ∧
    clientPrimary "376" = some .ready ∧
    (∀ e, clientPrimary cmd = some e →
      Dispatcher.dispatch cmd msg m e = trySendTo (m e) msg) ∧
    (∀ s, s ∈ m .all → s.closed = false →
      { s with inbox := s.inbox ++ [msg] } ∈ Dispatcher.dispatch cmd msg m .all) := by
  refine ⟨dispatch_at_all cmd msg m, dispatch_at_raw cmd msg m,
    by decide, by decide, by decide, by decide,
    fun e hp => dispatch_at_primary cmd msg m e hp, fun s hs hc => ?_⟩
  rw [dispatch_at_all cmd msg m]
  exact mem_trySendTo (m .all) msg s hs hc

/-- **C3 counterexample.** The claim also covers `Dispatcher::dispatch` of
`src/dispatcher.rs`: there a recognized command is sent only to its own
registry, so a `PRIVMSG` reaches neither the `AllCommands` nor the
`IrcMessage` (raw) registry, and `353` has no `Names` arm at all. -/
theorem claim_C3_counterexample :
    ngDispatchTargets "PRIVMSG" = [.privmsg] ∧
    NgEvent.allCommands ∉ ngDispatchTargets "PRIVMSG" ∧
    NgEvent.ircMessage ∉ ngDispatchTargets "PRIVMSG" ∧
    ngDispatchTargets "353" = [.ircMessage, .allCommands] := by
  refine ⟨by decide, by decide, by decide, by decide⟩

/-- A concrete registry with one open user subscription at `All`. -/
def oneAllSub : EventMap Nat :=
  fun e => if e = .all then [⟨false, false, []⟩] else []

/-- Witness for C3: dispatching `001` on a registry with an `All`
subscriber delivers to `IrcReady` per the primary mapping and to the `All`
subscriber's inbox. -/
theorem claim_C3_dispatch_fanout_witness :
    Dispatcher.dispatch "001" 5 oneAllSub .ircReady =
      trySendTo (oneAllSub .ircReady) 5 ∧
    (⟨false, false, [5]⟩ : Sub Nat) ∈ Dispatcher.dispatch "001" 5 oneAllSub .all := by
  refine ⟨(claim_C3_dispatch_fanout "001" 5 oneAllSub).2.2.2.2.2.2.1 .ircReady
    (by decide), ?_⟩
  have h := (claim_C3_dispatch_fanout "001" 5 oneAllSub).2.2.2.2.2.2.2
    ⟨false, false, []⟩ (by decide) rfl
  simpa using h

/-! ## C2: decode errors in the read branch -/

/-- A registry with no subscriptions, over raw-message payloads. -/
def emptyRegistry : EventMap RawMessage := fun _ => []

/-- **C2 counterexample.** The claim says a frame that fails to decode is
skipped and the loop continues with subsequent frames.  On the code the
read branch runs `let msg = msg?`, so the first decode error is returned
from `Runner::run`: a buffer whose first frame is the bare `CRLF` (empty
command) terminates processing with the error even though a valid `JOIN`
frame follows, and that frame is never dispatched. -/
theorem claim_C2_counterexample :
    Runner.processBuffer "\r\n:test!test@test JOIN #museun\r\n" emptyRegistry =
      .error .emptyCommand := by
  rfl

/-- **C2 (amended).** In the read branch, frames that decode successfully
are dispatched in order until the first decode error; that error is
propagated out of `Runner::run` (terminating the runner with `Err`), and
the frames after it are not processed. -/
theorem claim_C2_decode_error_terminates
    (pre rest : List (Except ParseError RawMessage)) (e : ParseError)
    (m : EventMap RawMessage)
    (hpre : ∀ x ∈ pre, ∃ msg, x = .ok msg) :
    Runner.processGo (pre ++ .error e :: rest) m = .error e := by
  induction pre generalizing m with
  | nil => rfl
  | cons x t ih =>
    obtain ⟨msg, hx⟩ := hpre x (by simp)
    subst hx
    exact ih _ fun y hy => hpre y (by simp [hy])

/-- Witness for C2: one valid frame followed by an error frame terminates
with that error. -/
theorem claim_C2_decode_error_terminates_witness :
    Runner.processGo
        [.ok ⟨[], none, "JOIN", ["#museun"], none⟩, .error .emptyCommand]
        emptyRegistry =
      .error .emptyCommand :=
  claim_C2_decode_error_terminates [.ok ⟨[], none, "JOIN", ["#museun"], none⟩]
    [] .emptyCommand emptyRegistry (by simp)

/-! ## C10: `decode_one` -/

/-- **C10 counterexample.** The claim says every input containing CRLF
yields an `(offset, message)` pair.  The input consisting of the bare CRLF
contains a CRLF but its frame has no command token, so `decode_one`
returns the parse error instead of a pair. -/
theorem claim_C10_counterexample :
    findSub ['\r', '\n'] "\r\n".toList = some 0 ∧
    decodeOne "\r\n".toList = .error .emptyCommand :=
  ⟨by decide, by rfl⟩

/-- **C10 (amended).** When the input contains no CRLF, `decode_one`
returns the `IncompleteMessage` error.  When the first CRLF is at position
`pos` and the frame up to it parses successfully, `decode_one` returns the
pair whose offset is `0` when the CRLF ends the input and `pos + 2` (the
first index past the CRLF) otherwise; when the frame fails to parse, the
parse error is returned. -/
theorem claim_C10_decode_one (input : List Char) :
    (findSub ['\r', '\n'] input = none →
      decodeOne input = .error (.incompleteMessage 0)) ∧
    (∀ pos, findSub ['\r', '\n'] input = some pos →
      (∀ msg, RawMessage.parse (input.take (pos + 2)) = .ok msg →
        decodeOne input =
          .ok (if pos + 2 = input.length then 0 else pos + 2, msg)) ∧
      (∀ err, RawMessage.parse (input.take (pos + 2)) = .error err →
        decodeOne input = .error err)) := by
  refine ⟨fun hn => ?_, fun pos hp => ⟨fun msg hm => ?_, fun err he => ?_⟩⟩
  · simp [decodeOne, hn]
  · simp [decodeOne, hp, hm, Except.map]
  · simp [decodeOne, hp, he, Except.map]

/-- Witness for C10 on a two-frame input: the first CRLF is at position 28,
the frame parses, and the returned offset is 30, pointing at the second
frame. -/
theorem claim_C10_decode_one_witness :
    decodeOne
        ":test!test@test JOIN #museun\r\n:test!test@test JOIN #shaken_bot\r\n".toList =
      .ok (30,
        ⟨[], some (.user "test" "test" "test"), "JOIN", ["#museun"], none⟩) := by
  have h :=
    ((claim_C10_decode_one
      ":test!test@test JOIN #museun\r\n:test!test@test JOIN #shaken_bot\r\n".toList).2
      28 (by rfl)).1
      ⟨[], some (.user "test" "test" "test"), "JOIN", ["#museun"], none⟩ (by rfl)
  simpa using h

/-! ## C8: the typed `Cap` projection -/

/-- **C8.** For every raw message on which the `Cap` projection succeeds,
the capability is the trailing data and `acknowledged` holds exactly when
the second argument is the string `ACK`. -/
theorem claim_C8_cap_projection (msg : RawMessage) (c : Cap)
    (h : Cap.fromIrc msg = .ok c) :
    msg.command = "CAP" ∧ msg.data = some c.capability ∧
    (c.acknowledged = true ↔ msg.args.get? 1 = some "ACK") := by
  unfold Cap.fromIrc at h
  split at h
  · cases h
  · rename_i hcmd
    have hcmd' : msg.command = "CAP" := not_not.mp hcmd
    cases hd : msg.data with
    | none => rw [hd] at h; cases h
    | some d =>
      rw [hd] at h
      cases ha : msg.args.get? 1 with
      | none => rw [ha] at h; cases h
      | some a =>
        rw [ha] at h
        cases h
        refine ⟨hcmd', rfl, ?_⟩
        simp [beq_iff_eq]

/-- The raw message of the wire line
`:tmi.trovo.tv CAP * ACK :trovo.tv/tags\r\n`. -/
def capAckMsg : RawMessage :=
  ⟨[], some (.server "tmi.trovo.tv"), "CAP", ["*", "ACK"], some "trovo.tv/tags"⟩

example : RawMessage.parse ":tmi.trovo.tv CAP * ACK :trovo.tv/tags\r\n".toList =
    .ok capAckMsg := by rfl

/-- Witness for C8 at the spec's CAP ACK scenario. -/
theorem claim_C8_cap_projection_witness :
    capAckMsg.command = "CAP" ∧
    capAckMsg.data = some (Cap.mk "trovo.tv/tags" true).capability ∧
    ((Cap.mk "trovo.tv/tags" true).acknowledged = true ↔
      capAckMsg.args.get? 1 = some "ACK") :=
  claim_C8_cap_projection capAckMsg ⟨"trovo.tv/tags", true⟩ rfl

/-! ## C6: tag parsing -/

lemma findSub_entry_iff (p : List Char) : ∀ (k v : List Char),
    ((findSub ['='] p).map fun i => (p.take i, p.drop (i + 1))) = some (k, v) ↔
      p = k ++ '=' :: v ∧ '=' ∉ k := by
  induction p with
  | nil =>
    intro k v
    constructor
    · intro h; simp [findSub] at h
    · rintro ⟨h, -⟩; exact absurd h (by simp)
  | cons c rest ih =>
    intro k v
    by_cases hc : c = '='
    · subst hc
      have h0 : findSub ['='] ('=' :: rest) = some 0 := by
        simp [findSub, List.isPrefixOf]
      rw [h0]
      cases k with
      | nil =>
        simp only [Option.map_some', List.take_zero, List.drop_succ_cons,
          List.drop_zero, Option.some.injEq, Prod.mk.injEq, List.nil_append,
          List.cons.injEq, List.not_mem_nil, not_false_iff, and_true,
          true_and]
      | cons a k' =>
        simp only [Option.map_some', List.take_zero, List.drop_succ_cons,
          List.drop_zero, Option.some.injEq, Prod.mk.injEq, List.cons_append,
          List.cons.injEq, List.mem_cons]
        constructor
        · rintro ⟨h, -⟩; cases h
        · rintro ⟨⟨h1, -⟩, hm⟩
          exact absurd (Or.inl h1) hm
    · have hfalse : ['='].isPrefixOf (c :: rest) = false := by
        simp [List.isPrefixOf]
        exact fun h => absurd h.symm hc
      have hstep : findSub ['='] (c :: rest) = (findSub ['='] rest).map (· + 1) := by
        rw [findSub, hfalse]
        simp
      rw [hstep]
      cases k with
      | nil =>
        constructor
        · intro h
          rw [Option.map_map] at h
          obtain ⟨i, -, hi⟩ := Option.map_eq_some'.mp h
          simp at hi
        · rintro ⟨h, -⟩
          rw [List.nil_append] at h
          injection h with h1 h2
          exact absurd h1 hc
      | cons a k' =>
        rw [Option.map_map]
        constructor
        · intro h
          obtain ⟨i, hfi, hi⟩ := Option.map_eq_some'.mp h
          simp only [Function.comp_apply, List.take_succ_cons,
            List.drop_succ_cons, Prod.mk.injEq, List.cons.injEq] at hi
          obtain ⟨⟨hca, htk⟩, hdv⟩ := hi
          have hih := (ih k' v).mp (by
            rw [Option.map_eq_some']
            exact ⟨i, hfi, by rw [htk, hdv]⟩)
          refine ⟨?_, ?_⟩
          · rw [List.cons_append, ← hca, ← hih.1]
          · intro hm
            rcases List.mem_cons.mp hm with hm | hm
            · exact hc (hca ▸ hm.symm)
            · exact hih.2 hm
        · rintro ⟨heq, hm⟩
          rw [List.cons_append] at heq
          injection heq with h1 h2
          have hih := (ih k' v).mpr ⟨h2, fun hmk =>
            hm (List.mem_cons.mpr (Or.inr hmk))⟩
          obtain ⟨i, hfi, hi⟩ := Option.map_eq_some'.mp hih
          rw [Option.map_eq_some']
          refine ⟨i, hfi, ?_⟩
          simp only [Function.comp_apply, List.take_succ_cons,
            List.drop_succ_cons, Prod.mk.injEq, List.cons.injEq]
          simp only [Prod.mk.injEq] at hi
          exact ⟨⟨h1, hi.1⟩, hi.2⟩

/-- **C6 counterexample.** The claim says a segment consisting of a key
with no `=` yields that key with an empty value; in `Tags::parse` the
`filter_map` over `p.find('=')?` drops such segments entirely: the frame
`@foo` produces no tag entry at all. -/
theorem claim_C6_counterexample :
    Tags.parse "@foo".toList = [] ∧
    ("foo".toList, ([] : List Char)) ∉ Tags.parse "@foo".toList ∧
    Tags.parse "@a=1;foo;b=2".toList =
      [("a".toList, "1".toList), ("b".toList, "2".toList)] := by
  refine ⟨by decide, by decide, by decide⟩

/-- **C6 (amended).** Tag parsing yields one `(key, value)` entry for
exactly the semicolon-delimited segments that contain `=`: the key is the
part before the first `=` and the value the part after it (so `key=` gives
an empty value); a segment with no `=` yields no entry. -/
theorem claim_C6_tag_entries (input k v : List Char) :
    (k, v) ∈ Tags.parse ('@' :: input) ↔
      (k ++ '=' :: v) ∈ splitTerminator ';' input ∧ '=' ∉ k := by
  unfold Tags.parse
  rw [List.drop_one, List.tail_cons, List.mem_filterMap]
  constructor
  · rintro ⟨seg, hseg, hf⟩
    obtain ⟨heq, hk⟩ := (findSub_entry_iff seg k v).mp hf
    exact ⟨heq ▸ hseg, hk⟩
  · rintro ⟨hmem, hk⟩
    exact ⟨k ++ '=' :: v, hmem, (findSub_entry_iff _ k v).mpr ⟨rfl, hk⟩⟩

/-! ## C7: color parsing -/

lemma hexDigit_facts (c : Char) (d : Nat) (h : hexDigit c = some d) :
    d < 16 ∧ isWs c = false ∧ c ≠ '+' ∧ c ≠ '#' := by
  have hsp : (' ').toNat = 32 := by decide
  have hta : ('\t').toNat = 9 := by decide
  have hcr : ('\r').toNat = 13 := by decide
  have hlf : ('\n').toNat = 10 := by decide
  have hpl : ('+').toNat = 43 := by decide
  have hhash : ('#').toNat = 35 := by decide
  have hne : ∀ (x : Char), c.toNat ≠ x.toNat → c ≠ x :=
    fun x hx he => hx (he ▸ rfl)
  unfold hexDigit at h
  have hrange : (48 ≤ c.toNat ∧ c.toNat ≤ 57 ∧ d = c.toNat - 48) ∨
      (97 ≤ c.toNat ∧ c.toNat ≤ 102 ∧ d = c.toNat - 87) ∨
      (65 ≤ c.toNat ∧ c.toNat ≤ 70 ∧ d = c.toNat - 55) := by
    split_ifs at h with h1 h2 h3
    · injection h with h; exact Or.inl ⟨h1.1, h1.2, h.symm⟩
    · injection h with h; exact Or.inr (Or.inl ⟨h2.1, h2.2, h.symm⟩)
    · injection h with h; exact Or.inr (Or.inr ⟨h3.1, h3.2, h.symm⟩)
  rcases hrange with ⟨hl, hu, rfl⟩ | ⟨hl, hu, rfl⟩ | ⟨hl, hu, rfl⟩ <;>
    refine ⟨by omega, ?_, hne '+' (by rw [hpl]; omega),
      hne '#' (by rw [hhash]; omega)⟩ <;>
  · have w1 : (c == ' ') = false :=
      beq_eq_false_iff_ne.mpr (hne ' ' (by rw [hsp]; omega))
    have w2 : (c == '\t') = false :=
      beq_eq_false_iff_ne.mpr (hne '\t' (by rw [hta]; omega))
    have w3 : (c == '\r') = false :=
      beq_eq_false_iff_ne.mpr (hne '\r' (by rw [hcr]; omega))
    have w4 : (c == '\n') = false :=
      beq_eq_false_iff_ne.mpr (hne '\n' (by rw [hlf]; omega))
    simp [isWs, w1, w2, w3, w4]

lemma hexValue_digits (l : List Char) : ∀ acc v, hexValue l acc = some v →
    ∀ c ∈ l, ∃ d, hexDigit c = some d := by
  induction l with
  | nil => intro acc v _ c hc; cases hc
  | cons a t ih =>
    intro acc v h c hc
    unfold hexValue at h
    cases hd : hexDigit a with
    | none => rw [hd] at h; cases h
    | some d =>
      rw [hd] at h
      rcases List.mem_cons.mp hc with rfl | hc
      · exact ⟨d, hd⟩
      · exact ih _ _ h c hc

lemma hexValue_bound (l : List Char) : ∀ acc v, hexValue l acc = some v →
    v < (acc + 1) * 16 ^ l.length := by
  induction l with
  | nil =>
    intro acc v h
    injection h with h
    subst h
    simp only [List.length_nil, pow_zero, mul_one]
    exact Nat.lt_succ_self acc
  | cons a t ih =>
    intro acc v h
    unfold hexValue at h
    cases hd : hexDigit a with
    | none => rw [hd] at h; cases h
    | some d =>
      rw [hd] at h
      have hb := ih _ _ h
      have hdlt : d < 16 := (hexDigit_facts a d hd).1
      have hle : (acc * 16 + d + 1) * 16 ^ t.length ≤
          (acc + 1) * 16 ^ (a :: t).length := by
        rw [List.length_cons, pow_succ]
        have h1 : acc * 16 + d + 1 ≤ (acc + 1) * 16 := by omega
        calc (acc * 16 + d + 1) * 16 ^ t.length
            ≤ ((acc + 1) * 16) * 16 ^ t.length := Nat.mul_le_mul_right _ h1
          _ = (acc + 1) * (16 ^ t.length * 16) := by ring
      exact lt_of_lt_of_le hb hle

lemma trimRightL_eq_self (s : List Char)
    (h : ∀ c, s.getLast? = some c → isWs c = false) : trimRightL s = s := by
  unfold trimRightL
  cases hs : s.reverse with
  | nil =>
    have hnil : s = [] := by simpa using congrArg List.reverse hs
    subst hnil; rfl
  | cons c t =>
    have hlast : s.getLast? = some c := by
      rw [← List.head?_reverse, hs]; rfl
    rw [List.dropWhile_cons, if_neg (by simp [h c hlast])]
    rw [← hs, List.reverse_reverse]

lemma fromHex_hash_digits (l : List Char) (v : Nat) (hlen : l.length = 6)
    (hv : hexValue l 0 = some v) :
    RGB.fromHex ('#' :: l) =
      ⟨(v >>> 16) % 256, (v >>> 8) % 256, v % 256⟩ := by
  have hdigits := hexValue_digits l 0 v hv
  have hne : l ≠ [] := by intro h; rw [h] at hlen; cases hlen
  have htrim : trimL ('#' :: l) = '#' :: l := by
    unfold trimL trimLeftL
    rw [List.dropWhile_cons, if_neg (by decide)]
    refine trimRightL_eq_self _ fun c hc => ?_
    rw [show '#' :: l = ['#'] ++ l from rfl,
      List.getLast?_append_of_ne_nil _ hne] at hc
    have hcl : c ∈ l := List.mem_of_mem_getLast? (hc ▸ Option.mem_def.mpr rfl)
    obtain ⟨d, hd⟩ := hdigits c hcl
    exact (hexDigit_facts c d hd).2.1
  have hhead : l.head? ≠ some '+' := by
    cases l with
    | nil => simp
    | cons a t =>
      obtain ⟨d, hd⟩ := hdigits a (by simp)
      have := (hexDigit_facts a d hd).2.2.1
      simpa using this
  have hbound : v < 2 ^ 32 := by
    have := hexValue_bound l 0 v hv
    rw [hlen] at this
    omega
  unfold RGB.fromHex
  rw [htrim]
  have hlen7 : ('#' :: l).length = 7 := by simp [hlen]
  simp only [List.head?_cons, hlen7, List.drop_one, List.tail_cons]
  unfold fromStrRadix16
  rw [if_neg hhead, if_neg hne, hv]
  have hb : v < 4294967296 := by
    have h32 : (2 : Nat) ^ 32 = 4294967296 := by norm_num
    exact h32 ▸ hbound
  simp [hb]

/-- **C7 counterexample.** The claim says any input that is neither a
`#RRGGBB` hex string nor a named preset (nor empty) produces a
`CannotParseTag` error.  `impl From<&str> for Trovo` is total: the
non-preset, non-hex input `purple` falls through to
`Turbo(RGB::from_hex("purple"))`, which defaults to white — a color, not
an error (the conversion has no error case at all). -/
theorem claim_C7_counterexample :
    findPreset "purple" = none ∧
    TrovoColor.fromStr "purple" = .turbo ⟨255, 255, 255⟩ := by
  refine ⟨by decide, by decide⟩

/-- **C7 (amended).** Color parsing is total.  The preset lookup table maps
each named color to its RGB; every accepted preset spelling parses to its
variant; the empty string parses to `Turbo` white; every non-preset string
parses to `Turbo(RGB::from_hex(s))` (which defaults to white when `s` is
not hex); and `#` followed by six case-insensitive hex digits parses to the
encoded 24-bit color.  No input produces an error. -/
theorem claim_C7_color_parsing :
    (∀ pr ∈ trovoColors, RGB.fromTrovo pr.1 = pr.2) ∧
    (∀ p ∈ presetSpellings, ∀ s ∈ p.1, TrovoColor.fromStr s = p.2) ∧
    TrovoColor.fromStr "" = .turbo RGB.default ∧
    (∀ s, findPreset s = none →
      TrovoColor.fromStr s = .turbo (RGB.fromHex s.toList)) ∧
    (∀ l v, l.length = 6 → hexValue l 0 = some v →
      RGB.fromHex ('#' :: l) =
        ⟨(v >>> 16) % 256, (v >>> 8) % 256, v % 256⟩) := by
  refine ⟨by decide, by decide, by decide, fun s h => ?_,
    fun l v hlen hv => fromHex_hash_digits l v hlen hv⟩
  unfold TrovoColor.fromStr
  rw [h]

/-- Witness for C7 at the spec's `#FF69B4` example, upper- and lower-case. -/
theorem claim_C7_color_parsing_witness :
    TrovoColor.fromStr "#FF69B4" = .turbo (RGB.fromHex "#FF69B4".toList) ∧
    RGB.fromHex "#FF69B4".toList = ⟨0xFF, 0x69, 0xB4⟩ ∧
    RGB.fromHex "#ff69b4".toList = ⟨0xFF, 0x69, 0xB4⟩ := by
  refine ⟨claim_C7_color_parsing.2.2.2.1 "#FF69B4" (by decide), ?_, ?_⟩
  · have h := claim_C7_color_parsing.2.2.2.2 "FF69B4".toList 0xFF69B4
      (by decide) (by decide)
    simpa using h
  · have h := claim_C7_color_parsing.2.2.2.2 "ff69b4".toList 0xFF69B4
      (by decide) (by decide)
    simpa using h

/-! ## C1: auto-PONG -/

lemma trimRightL_append_crlf (xs : List Char) :
    trimRightL (xs ++ ['\r', '\n']) = trimRightL xs := by
  unfold trimRightL
  rw [List.reverse_append]
  have h1 : isWs '\n' = true := by decide
  have h2 : isWs '\r' = true := by decide
  simp [List.dropWhile_cons, h1, h2]

lemma findSub_ping (t : List Char) :
    findSub [' ', ':'] ('P' :: 'I' :: 'N' :: 'G' :: ' ' :: ':' :: t) = some 4 := by
  simp [findSub, List.isPrefixOf]

lemma parts_new_ping (t : List Char) (h : t ≠ []) :
    Parts.new ('P' :: 'I' :: 'N' :: 'G' :: ' ' :: ':' :: t) =
      { head := "PING", args := [], tail := some (String.mk t) } := by
  unfold Parts.new
  rw [findSub_ping]
  simp [Option.filter, h, splitTerminator, splitChar]

lemma ping_frame_last (t : List Char) (c : Char) (hlast : t.getLast? = some c) :
    ('P' :: 'I' :: 'N' :: 'G' :: ' ' :: ':' :: t).getLast? = some c := by
  have hne : t ≠ [] := by intro h; rw [h] at hlast; cases hlast
  rw [show ('P' :: 'I' :: 'N' :: 'G' :: ' ' :: ':' :: t) =
      ['P', 'I', 'N', 'G', ' ', ':'] ++ t from rfl,
    List.getLast?_append_of_ne_nil _ hne]
  exact hlast

lemma parseL_ping (t : List Char) (c : Char) (hlast : t.getLast? = some c)
    (hws : isWs c = false) :
    Message.parseL ('P' :: 'I' :: 'N' :: 'G' :: ' ' :: ':' :: t) =
      some (.ping (String.mk t)) := by
  have hne : t ≠ [] := by intro h; rw [h] at hlast; cases hlast
  have htrim : trimL ('P' :: 'I' :: 'N' :: 'G' :: ' ' :: ':' :: t) =
      'P' :: 'I' :: 'N' :: 'G' :: ' ' :: ':' :: t := by
    unfold trimL trimLeftL
    rw [List.dropWhile_cons, if_neg (by decide)]
    refine trimRightL_eq_self _ fun d hd => ?_
    rw [ping_frame_last t c hlast] at hd
    injection hd with hd
    exact hd ▸ hws
  unfold Message.parseL
  rw [htrim]
  rw [if_neg (by simp)]
  have hat : (('P' :: 'I' :: 'N' :: 'G' :: ' ' :: ':' :: t).head? = some '@') =
      False := by simp
  have hcol : (('P' :: 'I' :: 'N' :: 'G' :: ' ' :: ':' :: t).head? = some ':') =
      False := by simp
  simp only [hat, hcol, if_false, parts_new_ping t hne]
  simp

/-- **C1.** For every inbound frame whose command is `PING` with trailing
token `t`, the sync client's `read_message` writes exactly the line
`PONG :<t>` terminated by CRLF before returning (first part), and the
PING wire frame built from any token parses to `Ping` with that token
(second part, so the concrete scenario follows); the runner's
(spec-modelled) writer serializes the same outbound line for the token its
internal ping subscription receives. -/
theorem claim_C1_auto_pong :
    (∀ (buf : List Char) (t : String),
      Message.parseL (trimRightL buf) = some (.ping t) →
      Client.autoPongL buf = some ("PONG :" ++ t ++ "\r\n") ∧
      Writer.pong t = "PONG :" ++ t ++ "\r\n") ∧
    (∀ (t : List Char) (c : Char), t.getLast? = some c → isWs c = false →
      Client.autoPongL ("PING :".toList ++ t ++ "\r\n".toList) =
        some ("PONG :" ++ String.mk t ++ "\r\n")) := by
  constructor
  · intro buf t h
    unfold Client.autoPongL
    rw [h]
    exact ⟨rfl, rfl⟩
  · intro t c hlast hws
    unfold Client.autoPongL
    have hsplit : "PING :".toList ++ t ++ "\r\n".toList =
        ('P' :: 'I' :: 'N' :: 'G' :: ' ' :: ':' :: t) ++ ['\r', '\n'] := by
      simp
    have htr : trimRightL ("PING :".toList ++ t ++ "\r\n".toList) =
        'P' :: 'I' :: 'N' :: 'G' :: ' ' :: ':' :: t := by
      rw [hsplit, trimRightL_append_crlf]
      refine trimRightL_eq_self _ fun d hd => ?_
      rw [ping_frame_last t c hlast] at hd
      injection hd with hd
      exact hd ▸ hws
    rw [htr, parseL_ping t c hlast hws]

/-- Witness for C1 at the spec's ping scenario `PING :tmi.trovo.tv`. -/
theorem claim_C1_auto_pong_witness :
    Client.autoPongL "PING :tmi.trovo.tv\r\n".toList =
      some "PONG :tmi.trovo.tv\r\n" := by
  have h := claim_C1_auto_pong.2 "tmi.trovo.tv".toList 'v' (by decide) (by decide)
  simpa using h

end Trovo
